import Mathlib

/-!
# ClangComplete: the caching and serialisation layer of `src/complete/complete.cpp`

A shallow embedding of the completion service: C strings and `starts_with`,
the analyzer facade (`translation_unit`), the single-slot pending query of
`async_translation_unit`, the filename registry (`tus`, `get_tud`) and the
output-array serialisation (`export_array`), followed by the properties of
the specification that are decided by this code.

Conventions of the embedding.

* A byte is a natural number. A `std::string` is the list of its bytes. A
  `const char *` is the list of bytes stored at the pointer; reading past the
  end of the list reads the terminating NUL, so a list with an embedded zero
  byte denotes the C string that ends there.
* A `std::set<std::string>` is the list of its elements in iteration order;
  `set_insert` is `std::set::insert`.
* The analyzer (libclang) is a parameter: a record of functions from the
  state of a translation-unit handle to what the library answers.
* The arguments `(buffer, len)` of `async_complete_at` and of the entry points
  are a `BufferArg`: a null `buffer` with the `len` passed beside it, or a
  non-null `buffer`, by the `len` bytes at it. The members of `translation_unit`
  test `buffer == nullptr` before anything else and do not read `len` then
  (lines 104, 127); they take `Option` of the `len` bytes, `none` for null.
* `unsigned line, col` and `int timeout` are compared and stored, never computed
  with: they are `Nat` and `Int`.
* A `std::future` carries the result of its task; whether a timed wait finds the
  task finished is an input (`ready`) of the function that waits.
* A function that can fail to return (a write outside an array, a string built
  from a non-empty range at the null pointer) returns `Option`, `none` for the
  call that does not return.
-/

namespace ClangComplete

/-! ## C strings -/

/-- The bytes of a `std::string`. -/
abbrev StdString := List Nat

/-- The libc function `strlen`: the number of bytes before the first NUL. -/
def strlen : List Nat → Nat
  | [] => 0
  | c :: t => if c = 0 then 0 else strlen t + 1

/-- The libc function `strncmp` on at most `n` bytes: the difference of the first
pair of bytes that differ, zero when none does before a NUL or before `n`. -/
def strncmp : List Nat → List Nat → Nat → Int
  | _, _, 0 => 0
  | a, b, n + 1 =>
    if a.headD 0 ≠ b.headD 0 then (a.headD 0 : Int) - (b.headD 0 : Int)
    else if a.headD 0 = 0 then 0
    else strncmp a.tail b.tail n

/-- The function `starts_with(str, pre)` of complete.cpp, lines 34-39. -/
def starts_with (str pre : List Nat) : Bool :=
  let lenpre := strlen pre
  let lenstr := strlen str
  if lenstr < lenpre then false else strncmp pre str lenpre == 0

/-- The assignment `std::string = const char *`: the bytes before the first NUL. -/
def string_of_c_str (s : List Nat) : StdString :=
  s.takeWhile (fun c => c ≠ 0)

/-! ## `std::set<std::string>` -/

/-- A `std::set<std::string>`, as the list of its elements in iteration order. -/
abbrev StringSet := List StdString

/-- The member function `std::set::insert`: the element is placed before the first
greater element, and is dropped when an equal element is met. -/
def set_insert (x : StdString) : StringSet → StringSet
  | [] => [x]
  | y :: t =>
    if x < y then x :: y :: t
    else if x = y then y :: t
    else y :: set_insert x t

/-! ## The analyzer -/

/-- The libclang enumeration `CXAvailabilityKind`. -/
inductive CXAvailabilityKind where
  | Available | Deprecated | NotAvailable | NotAccessible
  deriving DecidableEq, Repr

/-- The libclang enumeration `CXCompletionChunkKind`. -/
inductive CXCompletionChunkKind where
  | Optional | TypedText | Text | Placeholder | Informative | CurrentParameter
  | LeftParen | RightParen | LeftBracket | RightBracket | LeftBrace | RightBrace
  | LeftAngle | RightAngle | Comma | ResultType | Colon | SemiColon | Equal
  | HorizontalSpace | VerticalSpace
  deriving DecidableEq, Repr

/-- A libclang `CXString`, by what `clang_getCString` yields for it: `none` is the
null pointer, `some s` a pointer to the bytes `s`. -/
abbrev CXString := Option (List Nat)

/-- A libclang completion string: its availability and its chunks, each with the
kind and the text the library reports for it. -/
structure CXCompletionString where
  availability : CXAvailabilityKind
  chunks : List (CXCompletionChunkKind × CXString)
  deriving DecidableEq, Repr

/-- One element of `CXCodeCompleteResults::Results`. -/
structure CXCompletionResult where
  CompletionString : CXCompletionString
  deriving DecidableEq, Repr

/-- The libclang enumeration `CXDiagnosticSeverity`. -/
inductive CXDiagnosticSeverity where
  | Ignored | Note | Warning | Error | Fatal
  deriving DecidableEq, Repr

/-- A diagnostic handle, by its severity and by what `clang_formatDiagnostic`
yields for it. -/
structure CXDiagnostic where
  severity : CXDiagnosticSeverity
  formatted : CXString
  deriving DecidableEq, Repr

/-- The libclang structure `CXUnsavedFile`; `Contents` holds the `Length` bytes. -/
structure CXUnsavedFile where
  Filename : List Nat
  Contents : StdString
  deriving DecidableEq, Repr

/-- The state of a `CXTranslationUnit` handle: what it was parsed from and the
unsaved files of each reparse since, oldest first. -/
structure CXTranslationUnit where
  source_filename : List Nat
  command_line_args : List (List Nat)
  reparses : List (List CXUnsavedFile)
  deriving DecidableEq, Repr

/-- What the analyzer answers, as a function of the handle state.
`codeCompleteAt` is `clang_codeCompleteAt` (a non-null result set, as the code
dereferences it unconditionally); `diagnostics` lists what `clang_getDiagnostic`
yields for each index below `clang_getNumDiagnostics`, `none` for a null handle. -/
structure Analyzer where
  codeCompleteAt : CXTranslationUnit → List Nat → Nat → Nat → List CXUnsavedFile →
    List CXCompletionResult
  diagnostics : CXTranslationUnit → List (Option CXDiagnostic)

/-! ## `translation_unit` -/

/-- The data members of `class translation_unit` (the mutex apart). -/
structure translation_unit where
  tu : CXTranslationUnit
  filename : List Nat
  deriving DecidableEq, Repr

namespace translation_unit

/-- The member `unsaved_buffer`, lines 48-55. -/
def unsaved_buffer (self : translation_unit) (buffer : StdString) : CXUnsavedFile :=
  { Filename := self.filename, Contents := buffer }

/-- The member `to_std_string`, lines 57-64: the empty string for a null C string. -/
def to_std_string (str : CXString) : StdString :=
  match str with
  | none => []
  | some s => string_of_c_str s

/-- The member `for_each_completion_string`, lines 87-100: the callback `f` is run on
every chunk, in order, of an available completion; `σ` is what `f` captures. -/
def for_each_completion_string {σ : Type} (c : CXCompletionResult)
    (f : StdString → CXCompletionChunkKind → σ → σ) (captured : σ) : σ :=
  if c.CompletionString.availability = CXAvailabilityKind.Available then
    c.CompletionString.chunks.foldl (fun acc ch => f (to_std_string ch.2) ch.1 acc) captured
  else captured

/-- The member `completions_at`, lines 102-113. -/
def completions_at (an : Analyzer) (self : translation_unit) (line col : Nat)
    (buffer : Option StdString) : List CXCompletionResult :=
  match buffer with
  | none => an.codeCompleteAt self.tu self.filename line col []
  | some b => an.codeCompleteAt self.tu self.filename line col [self.unsaved_buffer b]

/-- The constructor, lines 115-120: `clang_parseTranslationUnit` on the filename and
the arguments, with no unsaved file. -/
def create (filename : List Nat) (args : List (List Nat)) : translation_unit :=
  { tu := { source_filename := filename, command_line_args := args, reparses := [] },
    filename := filename }

/-- The member `reparse`, lines 124-133. -/
def reparse (self : translation_unit) (buffer : Option StdString) : translation_unit :=
  match buffer with
  | none => { self with tu := { self.tu with reparses := self.tu.reparses ++ [[]] } }
  | some b =>
    { self with tu := { self.tu with reparses := self.tu.reparses ++ [[self.unsaved_buffer b]] } }

/-- The identifier `r` that the loop body of `complete_at` (lines 141-148) holds for
one completion after `for_each_completion_string`. -/
def typed_text (c : CXCompletionResult) : StdString :=
  for_each_completion_string c
    (fun s kind r => if kind = CXCompletionChunkKind.TypedText then s else r) []

/-- The member `complete_at`, lines 135-152. -/
def complete_at (an : Analyzer) (self : translation_unit) (line col : Nat) (pre : List Nat)
    (buffer : Option StdString) : StringSet :=
  (completions_at an self line col buffer).foldl
    (fun results c =>
      let r := typed_text c
      if !r.isEmpty && starts_with r pre then set_insert r results else results)
    []

/-- The member `get_diagnostics`, lines 154-169. -/
def get_diagnostics (an : Analyzer) (self : translation_unit) : List StdString :=
  (an.diagnostics self.tu).foldl
    (fun result diag =>
      match diag with
      | none => result
      | some d =>
        if d.severity ≠ CXDiagnosticSeverity.Ignored then result ++ [to_std_string d.formatted]
        else result)
    []

end translation_unit

/-! ## `(buffer, len)` arguments -/

/-- The arguments `(buffer, len)` of `async_complete_at` and of the entry points: a
null `buffer` with the `len` passed beside it, or a non-null `buffer`, by the `len`
bytes at it. -/
inductive BufferArg where
  | null (len : Nat)
  | bytes (contents : StdString)
  deriving DecidableEq, Repr

namespace BufferArg

/-- The test `buffer == nullptr`. -/
def is_null : BufferArg → Bool
  | null _ => true
  | bytes _ => false

/-- The argument `len`. -/
def len : BufferArg → Nat
  | null len => len
  | bytes contents => contents.length

/-- The constructor call `std::string(buffer, buffer + len)` of line 232: the `len`
bytes at `buffer`, and `none` for a non-empty range at the null pointer, on which
the call does not return. -/
def string_of_range : BufferArg → Option StdString
  | null 0 => some []
  | null (_ + 1) => none
  | bytes contents => some contents

/-- The pair as the members of `translation_unit` take it: `none` for a null
`buffer`, whose `len` they do not read, else the `len` bytes. -/
def unsaved : BufferArg → Option StdString
  | null _ => none
  | bytes contents => some contents

end BufferArg

/-! ## `async_translation_unit` -/

/-- A `std::future<std::set<std::string>>`: `none` has no shared state (`valid()` is
false), `some v` is the future of a task whose result is `v`. -/
abbrev Future := Option StringSet

/-- The function `detach_async`, lines 23-32: a valid future of the task result. The
task is evaluated on the state it is spawned in. -/
def detach_async (task : Unit → StringSet) : Future :=
  some (task ())

/-- The data members of `struct query` (the mutex apart), lines 185-191. -/
structure query where
  results_future : Future
  results : StringSet
  line : Nat
  col : Nat
  deriving DecidableEq, Repr

namespace query

/-- The constructor `query()`, lines 193-194: location (0,0), a default-constructed
future and an empty set. -/
def init : query :=
  { results_future := none, results := [], line := 0, col := 0 }

/-- The member `get_loc`, lines 196-200. -/
def get_loc (self : query) : Nat × Nat :=
  (self.line, self.col)

/-- The member `set`, lines 202-208. -/
def set (self : query) (results_future : Future) (line col : Nat) : query :=
  let self := { self with results := [] }
  let self := { self with results_future := results_future }
  let self := { self with line := line }
  { self with col := col }

/-- The member `get`, lines 210-217. `ready` is whether `wait_for(timeout)` reports
`future_status::ready`; `std::future::get` yields the task result and leaves the
future without shared state. Returns the set and the query afterwards. -/
def get (self : query) (timeout : Int) (ready : Bool) : StringSet × query :=
  if timeout > 0 ∧ self.results_future.isSome = true ∧ ready = true then
    let self := { self with results := self.results_future.getD [], results_future := none }
    (self.results, self)
  else (self.results, self)

end query

/-- The class `async_translation_unit`, lines 182-250: a `translation_unit` and its
pending query `q`. -/
structure async_translation_unit extends translation_unit where
  q : query
  deriving DecidableEq, Repr

namespace async_translation_unit

/-- The constructor, lines 224-225. -/
def create (filename : List Nat) (args : List (List Nat)) : async_translation_unit :=
  { translation_unit.create filename args with q := query.init }

/-- The member `async_complete_at`, lines 228-249. `ready` is the outcome of the timed
wait inside `q.get`. Returns the set and the unit afterwards; `none` when the call
does not return, which is a miss whose `buffer_as_string` cannot be built. -/
def async_complete_at (an : Analyzer) (self : async_translation_unit) (line col : Nat)
    (pre : List Nat) (timeout : Int) (buffer : BufferArg) (ready : Bool) :
    Option (StringSet × async_translation_unit) :=
  let dispatched : Option async_translation_unit :=
    if (line, col) ≠ self.q.get_loc then
      match buffer.string_of_range with
      | none => none
      | some buffer_as_string =>
        some { self with
               q := self.q.set
                 (detach_async fun _ =>
                   let b := if buffer.is_null then none else some buffer_as_string
                   self.totranslation_unit.complete_at an line col [] b)
                 line col }
    else some self
  match dispatched with
  | none => none
  | some self =>
    let got := self.q.get timeout ready
    let completions := got.1
    let self := { self with q := got.2 }
    let results := completions.foldl
      (fun results x => if starts_with x pre then set_insert x results else results) []
    some (results, self)

end async_translation_unit

/-! ## Output arrays -/

/-- The macro `CLANG_COMPLETE_MAX_RESULTS`, lines 254-256. -/
def CLANG_COMPLETE_MAX_RESULTS : Nat := 8192

/-- An array `const char * [n]`: slot `i` holds `none` while indeterminate, else the
bytes at the pointer stored there. -/
structure c_array (n : Nat) where
  slot : Nat → Option (List Nat)

namespace c_array

/-- An array none of whose slots was written. -/
def uninitialized (n : Nat) : c_array n :=
  { slot := fun _ => none }

/-- The assignment `out[i] = v`; `none` when `i` is outside the array. -/
def write {n : Nat} (a : c_array n) (i : Nat) (v : List Nat) : Option (c_array n) :=
  if i < n then some { slot := fun j => if j = i then some v else a.slot j } else none

end c_array

/-- The call `std::transform(first, last, out + i, c_str)`: one write per element,
at consecutive slots. -/
def transform_c_str {n : Nat} : List StdString → c_array n → Nat → Option (c_array n)
  | [], out, _ => some out
  | x :: rest, out, i =>
    match out.write i x with
    | none => none
    | some out1 => transform_c_str rest out1 (i + 1)

/-- The function `export_array`, lines 285-295, on the elements of the range in
iteration order. -/
def export_array {n : Nat} (r : List StdString) (out : c_array n) : Option (c_array n) :=
  let overflow := decide (r.length > CLANG_COMPLETE_MAX_RESULTS)
  let range := if overflow then r.take CLANG_COMPLETE_MAX_RESULTS else r
  match transform_c_str range out 0 with
  | none => none
  | some out1 => out1.write range.length []

/-! ## The registry and the C entry points -/

/-- The structure `translation_unit_data`, lines 258-270. -/
structure translation_unit_data where
  tu : async_translation_unit
  last_completions : StringSet
  completions : c_array (CLANG_COMPLETE_MAX_RESULTS + 2)
  last_diagnostics : List StdString
  diagnostics : c_array (CLANG_COMPLETE_MAX_RESULTS + 2)

/-- The constructor of `translation_unit_data`, lines 260-261: only `tu` is given
an initializer. -/
def translation_unit_data.create (filename : List Nat) (args : List (List Nat)) :
    translation_unit_data :=
  { tu := async_translation_unit.create filename args
    last_completions := []
    completions := c_array.uninitialized _
    last_diagnostics := []
    diagnostics := c_array.uninitialized _ }

/-- The global `tus`, line 274: the entry stored under each key, if any. -/
abbrev Registry := StdString → Option translation_unit_data

/-- The assignment `tus[key] = entry`. -/
def Registry.store (tus : Registry) (key : StdString) (entry : translation_unit_data) :
    Registry :=
  fun k => if k = key then some entry else tus k

/-- The call `tus.erase(key)`. -/
def Registry.erase (tus : Registry) (key : StdString) : Registry :=
  fun k => if k = key then none else tus k

/-- The function `get_tud`, lines 276-283: the registry afterwards and the entry
returned. The key is the `std::string` made from `filename`. -/
def get_tud (tus : Registry) (filename : List Nat) (args : List (List Nat)) :
    Registry × translation_unit_data :=
  match tus (string_of_c_str filename) with
  | none =>
    let entry := translation_unit_data.create filename args
    (tus.store (string_of_c_str filename) entry, entry)
  | some entry => (tus, entry)

/-- What can be read through a returned `const char **`. -/
abbrev CStringArray := Nat → Option (List Nat)

/-- The static array `empty_result`, lines 310 and 324. -/
def empty_result : CStringArray :=
  fun i => if i = 0 then some [] else none

/-- The entry point `clang_complete_get_completions`, lines 299-320. `locked` is
whether `try_lock_for` obtained the registry lock, `ready` the outcome of the timed
wait. `none` stands for a call that does not return. -/
def clang_complete_get_completions (an : Analyzer) (tus : Registry) (locked : Bool)
    (filename : List Nat) (args : List (List Nat)) (line col : Nat) (pre : List Nat)
    (timeout : Int) (buffer : BufferArg) (ready : Bool) :
    Option (CStringArray × Registry) :=
  if !locked then some (empty_result, tus)
  else
    let (tus, tud) := get_tud tus filename args
    match tud.tu.async_complete_at an line col pre timeout buffer ready with
    | none => none
    | some r =>
      let tud := { tud with tu := r.2, last_completions := r.1 }
      match export_array tud.last_completions tud.completions with
      | none => none
      | some out =>
        let tud := { tud with completions := out }
        some (tud.completions.slot, tus.store (string_of_c_str filename) tud)

/-- The entry point `clang_complete_get_diagnostics`, lines 322-336. `locked` is
whether `try_lock_for` obtained the registry lock. -/
def clang_complete_get_diagnostics (an : Analyzer) (tus : Registry) (locked : Bool)
    (filename : List Nat) (args : List (List Nat)) : Option (CStringArray × Registry) :=
  if !locked then some (empty_result, tus)
  else
    let (tus, tud) := get_tud tus filename args
    let tud := { tud with tu := { tud.tu with totranslation_unit := tud.tu.totranslation_unit.reparse none } }
    let tud := { tud with last_diagnostics := tud.tu.totranslation_unit.get_diagnostics an }
    match export_array tud.last_diagnostics tud.diagnostics with
    | none => none
    | some out =>
      let tud := { tud with diagnostics := out }
      some (tud.diagnostics.slot, tus.store (string_of_c_str filename) tud)

/-- The entry point `clang_complete_reparse`, lines 338-344. -/
def clang_complete_reparse (tus : Registry) (filename : List Nat) (args : List (List Nat))
    (buffer : BufferArg) : Registry :=
  let (tus, tud) := get_tud tus filename args
  let tud := { tud with
               tu := { tud.tu with
                       totranslation_unit := tud.tu.totranslation_unit.reparse buffer.unsaved } }
  tus.store (string_of_c_str filename) tud

/-- The entry point `clang_complete_free_tu`, lines 346-353. -/
def clang_complete_free_tu (tus : Registry) (filename : List Nat) : Registry :=
  if (tus (string_of_c_str filename)).isSome then tus.erase (string_of_c_str filename)
  else tus

/-! ## Locks and writes in program order

The operations on mutexes and on the fields of `struct query` that one thread
performs, in program order, for the functions above: a `std::lock_guard` is a
`lock` where it is declared and an `unlock` at the end of its scope. -/

/-- The mutexes of the program: `global_mutex` (line 272), the member `m` of
`translation_unit` (line 46) and the member `m` of `query` (line 187). -/
inductive Mutex where
  | global_mutex | translation_unit_m | query_m
  deriving DecidableEq, Repr

/-- The data members of `struct query`. -/
inductive QueryField where
  | results_future | results | line | col
  deriving DecidableEq, Repr

/-- One operation of a thread. -/
inductive Op where
  | lock (m : Mutex)
  | unlock (m : Mutex)
  | write (f : QueryField)
  | read (f : QueryField)
  | spawn_task
  | codeCompleteAt
  deriving DecidableEq, Repr

/-- Whether the operation writes a field of the pending query. -/
def Op.is_write : Op → Bool
  | Op.write _ => true
  | _ => false

/-- Each operation of a thread paired with the mutexes the thread holds when it
performs it, given the mutexes held at the start. -/
def held_at : List Mutex → List Op → List (List Mutex × Op)
  | _, [] => []
  | held, Op.lock m :: rest => (held, Op.lock m) :: held_at (m :: held) rest
  | held, Op.unlock m :: rest => (held, Op.unlock m) :: held_at (held.erase m) rest
  | held, op :: rest => (held, op) :: held_at held rest

/-- The operations of `query::get_loc`, lines 196-200 (the lock is commented out). -/
def query.get_loc_ops : List Op :=
  [Op.read QueryField.line, Op.read QueryField.col]

/-- The operations of `query::set`, lines 202-208. -/
def query.set_ops : List Op :=
  [Op.write QueryField.results, Op.write QueryField.results_future,
   Op.write QueryField.line, Op.write QueryField.col]

/-- The operations of `query::get`, lines 210-217: the fields are written exactly
when `query.get` consumes the future. -/
def query.get_ops (self : query) (timeout : Int) (ready : Bool) : List Op :=
  if timeout > 0 then
    if self.results_future.isSome = true then
      if ready = true then
        [Op.read QueryField.results_future, Op.write QueryField.results_future,
         Op.write QueryField.results, Op.read QueryField.results]
      else [Op.read QueryField.results_future, Op.read QueryField.results]
    else [Op.read QueryField.results_future, Op.read QueryField.results]
  else [Op.read QueryField.results]

/-- The operations of `translation_unit::complete_at`, lines 135-152: the lock guard
on `m` spans the analyzer call. This is what the background task runs. -/
def translation_unit.complete_at_ops : List Op :=
  [Op.lock Mutex.translation_unit_m, Op.codeCompleteAt, Op.unlock Mutex.translation_unit_m]

/-- The operations of the calling thread in a call of `async_complete_at` that
returns, lines 228-249, on the same conditions as `async_complete_at` (the
operations of `query::get` depend on the future only through `valid()`). -/
def async_translation_unit.async_complete_at_ops (self : async_translation_unit)
    (line col : Nat) (timeout : Int) (ready : Bool) : List Op :=
  if (line, col) ≠ self.q.get_loc then
    query.get_loc_ops ++ [Op.spawn_task] ++ query.set_ops ++
      (self.q.set (detach_async fun _ => []) line col).get_ops timeout ready
  else query.get_loc_ops ++ self.q.get_ops timeout ready

/-- The operations of the calling thread in `clang_complete_get_completions`, lines
299-320: nothing when the registry lock is not obtained. -/
def clang_complete_get_completions_ops (tus : Registry) (locked : Bool)
    (filename : List Nat) (args : List (List Nat)) (line col : Nat)
    (timeout : Int) (ready : Bool) : List Op :=
  if !locked then []
  else
    [Op.lock Mutex.global_mutex] ++
      (get_tud tus filename args).2.tu.async_complete_at_ops line col timeout ready ++
      [Op.unlock Mutex.global_mutex]

/-! ## Definitions that follow the words of the specification -/

/-- The identifier as the specification words it: nothing for a completion that is
not available, else the concatenation, in chunk order, of the texts of all chunks
of kind typed-text. -/
def spec_typed_text_concat (c : CXCompletionResult) : StdString :=
  if c.CompletionString.availability = CXAvailabilityKind.Available then
    ((c.CompletionString.chunks.filter
      (fun ch => decide (ch.1 = CXCompletionChunkKind.TypedText))).map
      (fun ch => translation_unit.to_std_string ch.2)).flatten
  else []

/-- The texts of the typed-text chunks of a completion, in chunk order. -/
def typed_text_chunks (c : CXCompletionResult) : List StdString :=
  (c.CompletionString.chunks.filter
    (fun ch => decide (ch.1 = CXCompletionChunkKind.TypedText))).map
    (fun ch => translation_unit.to_std_string ch.2)

/-- The diagnostics the specification counts: those with a non-null handle and a
severity other than ignored, in the order the analyzer lists them. -/
def non_ignored_diagnostics (an : Analyzer) (tu : CXTranslationUnit) : List CXDiagnostic :=
  (an.diagnostics tu).filterMap
    (fun diag =>
      match diag with
      | none => none
      | some d => if d.severity ≠ CXDiagnosticSeverity.Ignored then some d else none)

/-! ## Concrete inputs -/

/-- The completion `int foo`: a result-type chunk and the typed text `foo`. -/
def example_foo : CXCompletionResult :=
  { CompletionString :=
      { availability := CXAvailabilityKind.Available
        chunks := [(CXCompletionChunkKind.ResultType, some [105, 110, 116]),
                   (CXCompletionChunkKind.TypedText, some [102, 111, 111])] } }

/-- The completion `bar`. -/
def example_bar : CXCompletionResult :=
  { CompletionString :=
      { availability := CXAvailabilityKind.Available
        chunks := [(CXCompletionChunkKind.TypedText, some [98, 97, 114])] } }

/-- An available completion with two typed-text chunks, `f` and `g`. -/
def example_two_typed : CXCompletionResult :=
  { CompletionString :=
      { availability := CXAvailabilityKind.Available
        chunks := [(CXCompletionChunkKind.TypedText, some [102]),
                   (CXCompletionChunkKind.TypedText, some [103])] } }

/-- An analyzer that completes `foo` and `bar` on line 1 and nothing elsewhere, and
reports two errors: one whose formatted text is a null C string, then one whose
formatted text is `x`. -/
def example_analyzer : Analyzer :=
  { codeCompleteAt := fun _ _ line _ _ => if line = 1 then [example_foo, example_bar] else []
    diagnostics := fun _ =>
      [some { severity := CXDiagnosticSeverity.Error, formatted := none },
       some { severity := CXDiagnosticSeverity.Error, formatted := some [120] }] }

/-- An analyzer that reports a warning formatted as `x`, a null diagnostic handle
and an ignored diagnostic formatted as `y`. -/
def example_analyzer_warning : Analyzer :=
  { codeCompleteAt := fun _ _ _ _ _ => []
    diagnostics := fun _ =>
      [some { severity := CXDiagnosticSeverity.Warning, formatted := some [120] },
       none,
       some { severity := CXDiagnosticSeverity.Ignored, formatted := some [121] }] }

/-- The file name `t.c`. -/
def example_filename : List Nat := [116, 46, 99]

/-- The arguments `-x c`. -/
def example_args : List (List Nat) := [[45, 120], [99]]

/-- The arguments `-x c++`. -/
def example_args_cxx : List (List Nat) := [[45, 120], [99, 43, 43]]

/-- A registry without entries. -/
def example_empty_registry : Registry := fun _ => none

/-- The unit for `t.c` after a completion at (1,30), with a null buffer and `len` 0,
whose task was awaited. -/
def example_settled_unit : async_translation_unit :=
  (((async_translation_unit.create example_filename example_args).async_complete_at
    example_analyzer 1 30 [102] 2000 (BufferArg.null 0) true).map Prod.snd).getD
    (async_translation_unit.create example_filename example_args)

/-! ## C strings: what `starts_with` decides -/

theorem strlen_eq_length (s : List Nat) : strlen s = (string_of_c_str s).length := by
  induction s with
  | nil => rfl
  | cons c t ih =>
    by_cases hc : c = 0
    · simp [strlen, string_of_c_str, hc]
    · simp only [strlen, string_of_c_str, hc, if_false, List.takeWhile_cons, ne_eq,
        not_false_eq_true, decide_True, if_true, List.length_cons]
      simpa [string_of_c_str] using ih

theorem string_of_c_str_eq_self {s : List Nat} (h : 0 ∉ s) : string_of_c_str s = s := by
  unfold string_of_c_str
  rw [List.takeWhile_eq_self_iff]
  intro x hx
  have : x ≠ 0 := fun h0 => h (h0 ▸ hx)
  simpa using this

theorem string_of_c_str_isPrefix (s : List Nat) : string_of_c_str s <+: s :=
  List.takeWhile_prefix _

theorem zero_not_mem_string_of_c_str (s : List Nat) : 0 ∉ string_of_c_str s := by
  intro h
  have := List.mem_takeWhile_imp h
  simp at this

/-- On the bytes before the first NUL of `pre`, `strncmp` is zero exactly when those
bytes begin the C string `str`. -/
theorem strncmp_strlen_eq_zero_iff (pre str : List Nat) :
    strncmp pre str (strlen pre) = 0 ↔ string_of_c_str pre <+: string_of_c_str str := by
  induction pre generalizing str with
  | nil => simp [strlen, strncmp, string_of_c_str]
  | cons c t ih =>
    by_cases hc : c = 0
    · simp [strlen, strncmp, string_of_c_str, hc]
    · have hlen : strlen (c :: t) = strlen t + 1 := by simp [strlen, hc]
      rw [hlen]
      cases str with
      | nil =>
        have hne : (c : Int) ≠ 0 := by exact_mod_cast hc
        simp [strncmp, string_of_c_str, hc, hne]
      | cons d u =>
        by_cases hcd : c = d
        · subst hcd
          have := ih u
          simp only [string_of_c_str] at this
          simp [strncmp, string_of_c_str, hc, this]
        · have hne : (c : Int) - (d : Int) ≠ 0 := by
            intro h
            apply hcd
            have : (c : Int) = d := by linarith
            exact_mod_cast this
          by_cases hd : d = 0
          · simp [strncmp, string_of_c_str, hc, hcd, hne, hd]
          · simp [strncmp, string_of_c_str, hc, hcd, hne, hd]

/-- The function `starts_with` holds exactly when the C string `pre` begins the C
string `str`. -/
theorem starts_with_iff (str pre : List Nat) :
    starts_with str pre = true ↔ string_of_c_str pre <+: string_of_c_str str := by
  unfold starts_with
  by_cases hlt : strlen str < strlen pre
  · simp only [hlt, if_true, Bool.false_eq_true, false_iff]
    intro h
    have := h.length_le
    rw [← strlen_eq_length, ← strlen_eq_length] at this
    omega
  · simp only [hlt, if_false, beq_iff_eq]
    exact strncmp_strlen_eq_zero_iff pre str

/-- For a prefix without a NUL byte, `starts_with` is the list prefix relation. -/
theorem starts_with_iff_isPrefix {pre : List Nat} (hpre : 0 ∉ pre) (str : List Nat) :
    starts_with str pre = true ↔ pre <+: str := by
  rw [starts_with_iff, string_of_c_str_eq_self hpre]
  constructor
  · intro h
    exact h.trans (string_of_c_str_isPrefix str)
  · intro h
    obtain ⟨r, rfl⟩ := h
    unfold string_of_c_str
    rw [List.takeWhile_append_of_pos]
    · exact List.prefix_append _ _
    · intro x hx
      have : x ≠ 0 := fun h0 => hpre (h0 ▸ hx)
      simpa using this

theorem isPrefix_iff_take (pre str : List Nat) :
    pre <+: str ↔ pre.length ≤ str.length ∧ str.take pre.length = pre := by
  constructor
  · intro h
    exact ⟨h.length_le, (List.prefix_iff_eq_take.1 h).symm⟩
  · rintro ⟨_, h⟩
    exact List.prefix_iff_eq_take.2 h.symm

theorem starts_with_nil (str : List Nat) : starts_with str [] = true := by
  rw [starts_with_iff]
  simp [string_of_c_str]

/-! ## `std::set`: membership and iteration order -/

theorem mem_set_insert (a x : StdString) (s : StringSet) :
    a ∈ set_insert x s ↔ a = x ∨ a ∈ s := by
  induction s with
  | nil => simp [set_insert]
  | cons y t ih =>
    unfold set_insert
    by_cases h1 : x < y
    · simp [h1]
    · by_cases h2 : x = y
      · subst h2
        simp
      · simp only [h1, h2, if_false, List.mem_cons, ih]
        tauto

theorem sorted_set_insert (x : StdString) {s : StringSet} (hs : s.Sorted (· < ·)) :
    (set_insert x s).Sorted (· < ·) := by
  induction s with
  | nil => simp [set_insert]
  | cons y t ih =>
    unfold set_insert
    have hy := List.rel_of_sorted_cons hs
    have ht := List.Sorted.of_cons hs
    by_cases h1 : x < y
    · simp only [h1, if_true]
      refine List.sorted_cons.2 ⟨?_, hs⟩
      intro b hb
      rcases List.mem_cons.1 hb with rfl | hb
      · exact h1
      · exact lt_trans h1 (hy b hb)
    · by_cases h2 : x = y
      · simpa [h1, h2] using hs
      · simp only [h1, h2, if_false]
        refine List.sorted_cons.2 ⟨?_, ih ht⟩
        intro b hb
        rcases (mem_set_insert b x t).1 hb with rfl | hb
        · exact lt_of_le_of_ne (not_lt.1 h1) (Ne.symm h2)
        · exact hy b hb

/-- Two sets with the same elements iterate in the same order. -/
theorem sorted_ext {a b : StringSet} (ha : a.Sorted (· < ·)) (hb : b.Sorted (· < ·))
    (h : ∀ x, x ∈ a ↔ x ∈ b) : a = b :=
  List.eq_of_perm_of_sorted ((List.perm_ext_iff_of_nodup ha.nodup hb.nodup).2 h) ha hb

/-- The elements of a set built by inserting, for each `c` of a list that passes
`cond`, the string `key c`. -/
theorem mem_foldl_insert {γ : Type} (cond : γ → Bool) (key : γ → StdString) (l : List γ)
    (acc : StringSet) (a : StdString) :
    a ∈ l.foldl (fun results c => if cond c then set_insert (key c) results else results) acc ↔
      a ∈ acc ∨ ∃ c ∈ l, cond c = true ∧ key c = a := by
  induction l generalizing acc with
  | nil => simp
  | cons c t ih =>
    rw [List.foldl_cons, ih]
    by_cases hc : cond c = true
    · simp only [hc, if_true, mem_set_insert, List.mem_cons, exists_eq_or_imp, true_and]
      constructor
      · rintro ((rfl | h) | h)
        · exact Or.inr (Or.inl rfl)
        · exact Or.inl h
        · exact Or.inr (Or.inr h)
      · rintro (h | h | h)
        · exact Or.inl (Or.inr h)
        · exact Or.inl (Or.inl h.symm)
        · exact Or.inr h
    · simp [hc]

theorem sorted_foldl_insert {γ : Type} (cond : γ → Bool) (key : γ → StdString) (l : List γ)
    {acc : StringSet} (hacc : acc.Sorted (· < ·)) :
    (l.foldl (fun results c => if cond c then set_insert (key c) results else results)
      acc).Sorted (· < ·) := by
  induction l generalizing acc with
  | nil => simpa using hacc
  | cons c t ih =>
    rw [List.foldl_cons]
    apply ih
    by_cases hc : cond c = true
    · simpa [hc] using sorted_set_insert (key c) hacc
    · simpa [hc] using hacc

/-! ## `export_array` -/

theorem transform_c_str_spec {n : Nat} (xs : List StdString) (out : c_array n) (i : Nat)
    (h : i + xs.length ≤ n) :
    ∃ out1, transform_c_str xs out i = some out1 ∧
      ∀ j, out1.slot j = if i ≤ j ∧ j < i + xs.length then xs[j - i]? else out.slot j := by
  induction xs generalizing out i with
  | nil =>
    refine ⟨out, rfl, fun j => ?_⟩
    have : ¬ (i ≤ j ∧ j < i + ([] : List StdString).length) := by
      simp only [List.length_nil]
      omega
    rw [if_neg this]
  | cons x rest ih =>
    have hlen : (x :: rest).length = rest.length + 1 := rfl
    have hi : i < n := by omega
    obtain ⟨out2, h2, hslot⟩ :=
      ih { slot := fun j => if j = i then some x else out.slot j } (i + 1) (by omega)
    refine ⟨out2, ?_, fun j => ?_⟩
    · simp only [transform_c_str, c_array.write, hi, if_true]
      exact h2
    · rw [hslot j, hlen]
      by_cases hj : j = i
      · subst hj
        simp
      · by_cases hin : i ≤ j ∧ j < i + (rest.length + 1)
        · have hin2 : i + 1 ≤ j ∧ j < i + 1 + rest.length := by omega
          rw [if_pos hin, if_pos hin2]
          have : j - i = (j - (i + 1)) + 1 := by omega
          rw [this, List.getElem?_cons_succ]
        · have hin2 : ¬ (i + 1 ≤ j ∧ j < i + 1 + rest.length) := by omega
          rw [if_neg hin, if_neg hin2]
          simp [hj]

/-- What `export_array` writes: with `k = min(size, MAX_RESULTS)`, slot `i < k` gets
the `i`-th element, slot `k` the empty string, and every later slot is left as it
was; the function stays inside an array of more than `MAX_RESULTS` slots. -/
theorem export_array_spec {n : Nat} (r : List StdString) (out : c_array n)
    (hn : CLANG_COMPLETE_MAX_RESULTS < n) :
    ∃ out1, export_array r out = some out1 ∧
      (∀ i, i < min r.length CLANG_COMPLETE_MAX_RESULTS → out1.slot i = r[i]?) ∧
      out1.slot (min r.length CLANG_COMPLETE_MAX_RESULTS) = some [] ∧
      (∀ j, min r.length CLANG_COMPLETE_MAX_RESULTS < j → out1.slot j = out.slot j) := by
  have hrange : ∀ range : List StdString,
      (range = if decide (r.length > CLANG_COMPLETE_MAX_RESULTS) = true
        then r.take CLANG_COMPLETE_MAX_RESULTS else r) →
      range.length = min r.length CLANG_COMPLETE_MAX_RESULTS ∧
      ∀ i, i < min r.length CLANG_COMPLETE_MAX_RESULTS → range[i]? = r[i]? := by
    intro range hr
    by_cases hov : r.length > CLANG_COMPLETE_MAX_RESULTS
    · simp only [hov, decide_True, if_true] at hr
      subst hr
      refine ⟨by simp [List.length_take]; omega, fun i hi => ?_⟩
      rw [List.getElem?_take]
      have : i < CLANG_COMPLETE_MAX_RESULTS := lt_of_lt_of_le hi (min_le_right _ _)
      simp [this]
    · simp only [hov, decide_False, if_false, Bool.false_eq_true] at hr
      subst hr
      exact ⟨by omega, fun _ _ => rfl⟩
  obtain ⟨hlen, hget⟩ := hrange _ rfl
  have hk : min r.length CLANG_COMPLETE_MAX_RESULTS ≤ CLANG_COMPLETE_MAX_RESULTS :=
    min_le_right _ _
  obtain ⟨out2, h2, hslot⟩ := transform_c_str_spec
    (if decide (r.length > CLANG_COMPLETE_MAX_RESULTS) = true
      then r.take CLANG_COMPLETE_MAX_RESULTS else r) out 0 (by rw [hlen]; omega)
  have hw : min r.length CLANG_COMPLETE_MAX_RESULTS < n := by omega
  refine ⟨{ slot := fun j => if j = min r.length CLANG_COMPLETE_MAX_RESULTS
      then some [] else out2.slot j }, ?_, ?_, ?_, ?_⟩
  · simp only [export_array, h2, c_array.write, hlen, hw, if_true]
  · intro i hi
    have hne : i ≠ min r.length CLANG_COMPLETE_MAX_RESULTS := by omega
    simp only [hne, if_false]
    rw [hslot i, hlen, if_pos ⟨Nat.zero_le _, by omega⟩, Nat.sub_zero]
    exact hget i hi
  · simp
  · intro j hj
    have hne : j ≠ min r.length CLANG_COMPLETE_MAX_RESULTS := by omega
    simp only [hne, if_false]
    rw [hslot j, hlen, if_neg (by omega)]


theorem mem_filter_insert (pre : List Nat) (completions : StringSet) (a : StdString) :
    a ∈ completions.foldl
        (fun results x => if starts_with x pre then set_insert x results else results) [] ↔
      a ∈ completions ∧ starts_with a pre = true := by
  have h := mem_foldl_insert (fun x => starts_with x pre) (fun x => x) completions [] a
  rw [h]
  constructor
  · rintro (h | ⟨c, hc, hs, rfl⟩)
    · cases h
    · exact ⟨hc, hs⟩
  · rintro ⟨hc, hs⟩
    exact Or.inr ⟨a, hc, hs, rfl⟩


/-! ## `async_complete_at`: when it returns and what -/

/-- With a null buffer passed with `len` 0, or a non-null buffer, line 232 builds the
string, and the buffer the task passes on is the caller's. -/
theorem string_of_range_of_valid (buffer : BufferArg)
    (hbuf : buffer.is_null = true → buffer.len = 0) :
    buffer.string_of_range = some (buffer.unsaved.getD []) ∧
      (if buffer.is_null = true then none else some (buffer.unsaved.getD [])) =
        buffer.unsaved := by
  cases buffer with
  | null n =>
    have hn : n = 0 := hbuf rfl
    subst hn
    exact ⟨rfl, rfl⟩
  | bytes contents => exact ⟨rfl, rfl⟩

theorem string_of_range_eq_none_iff (buffer : BufferArg) :
    buffer.string_of_range = none ↔ buffer.is_null = true ∧ buffer.len ≠ 0 := by
  cases buffer with
  | null n =>
    cases n with
    | zero => simp [BufferArg.string_of_range, BufferArg.is_null, BufferArg.len]
    | succ m => simp [BufferArg.string_of_range, BufferArg.is_null, BufferArg.len]
  | bytes contents => simp [BufferArg.string_of_range, BufferArg.is_null]

/-- The call does not return exactly on a miss with a null buffer and a positive
`len`. -/
theorem async_complete_at_eq_none_iff (an : Analyzer) (self : async_translation_unit)
    (line col : Nat) (pre : List Nat) (timeout : Int) (buffer : BufferArg) (ready : Bool) :
    self.async_complete_at an line col pre timeout buffer ready = none ↔
      (line, col) ≠ self.q.get_loc ∧ buffer.is_null = true ∧ buffer.len ≠ 0 := by
  rw [← string_of_range_eq_none_iff]
  unfold async_translation_unit.async_complete_at
  by_cases hm : (line, col) ≠ self.q.get_loc
  · cases hs : buffer.string_of_range <;> simp [hm]
  · simp [hm]

theorem async_complete_at_returns (an : Analyzer) (self : async_translation_unit)
    (line col : Nat) (pre : List Nat) (timeout : Int) (buffer : BufferArg) (ready : Bool)
    (hbuf : buffer.is_null = true → buffer.len = 0) :
    ∃ r, self.async_complete_at an line col pre timeout buffer ready = some r := by
  cases h : self.async_complete_at an line col pre timeout buffer ready with
  | some r => exact ⟨r, rfl⟩
  | none =>
    obtain ⟨-, hnull, hlen⟩ := (async_complete_at_eq_none_iff an self line col pre timeout
      buffer ready).1 h
    exact absurd (hbuf hnull) hlen

theorem async_complete_at_fst_mem (an : Analyzer) (self : async_translation_unit)
    (line col : Nat) (pre : List Nat) (timeout : Int) (buffer : BufferArg)
    (ready : Bool) (r : StringSet × async_translation_unit)
    (hr : self.async_complete_at an line col pre timeout buffer ready = some r)
    (a : StdString) (h : a ∈ r.1) :
    starts_with a pre = true := by
  unfold async_translation_unit.async_complete_at at hr
  by_cases hm : (line, col) ≠ self.q.get_loc
  · cases hs : buffer.string_of_range with
    | none => simp [hm, hs] at hr
    | some bs =>
      simp only [hm, hs, ne_eq, not_false_eq_true, if_true, Option.some.injEq] at hr
      subst hr
      exact ((mem_filter_insert pre _ a).1 h).2
  · simp only [hm, if_false, Option.some.injEq] at hr
    subst hr
    exact ((mem_filter_insert pre _ a).1 h).2

theorem async_complete_at_hit (an : Analyzer) (self : async_translation_unit)
    (line col : Nat) (pre : List Nat) (timeout : Int) (buffer : BufferArg)
    (ready : Bool) (hloc : (line, col) = self.q.get_loc) (hfut : self.q.results_future = none) :
    self.async_complete_at an line col pre timeout buffer ready =
      some (self.q.results.foldl
        (fun results x => if starts_with x pre then set_insert x results else results) [],
       self) := by
  unfold async_translation_unit.async_complete_at
  simp [hloc, query.get, hfut]

theorem async_complete_at_miss_zero (an : Analyzer) (self : async_translation_unit)
    (line col : Nat) (pre : List Nat) (buffer : BufferArg)
    (ready : Bool) (hloc : (line, col) ≠ self.q.get_loc)
    (hbuf : buffer.is_null = true → buffer.len = 0) :
    self.async_complete_at an line col pre 0 buffer ready =
      some ([], { self with
             q := self.q.set
               (detach_async fun _ =>
                 self.totranslation_unit.complete_at an line col [] buffer.unsaved)
               line col }) := by
  obtain ⟨hs, hb⟩ := string_of_range_of_valid buffer hbuf
  unfold async_translation_unit.async_complete_at
  simp [hloc, hs, hb, query.get, query.set, detach_async]

/-- The defect of line 232: on a miss with a null buffer and a positive `len` the
string is built from a non-empty range at the null pointer, and the call does not
return. -/
theorem async_complete_at_null_range (an : Analyzer) (self : async_translation_unit)
    (line col : Nat) (pre : List Nat) (timeout : Int) (n : Nat) (ready : Bool)
    (hloc : (line, col) ≠ self.q.get_loc) :
    self.async_complete_at an line col pre timeout (BufferArg.null (n + 1)) ready = none :=
  (async_complete_at_eq_none_iff an self line col pre timeout _ ready).2
    ⟨hloc, rfl, Nat.succ_ne_zero n⟩

theorem clang_complete_get_completions_locked (an : Analyzer) (tus : Registry)
    (filename : List Nat) (args : List (List Nat)) (line col : Nat) (pre : List Nat)
    (timeout : Int) (buffer : BufferArg) (ready : Bool)
    (r : StringSet × async_translation_unit)
    (hr : (get_tud tus filename args).2.tu.async_complete_at an line col pre timeout buffer
      ready = some r) :
    ∃ out : c_array (CLANG_COMPLETE_MAX_RESULTS + 2),
      export_array r.1 (get_tud tus filename args).2.completions = some out ∧
      clang_complete_get_completions an tus true filename args line col pre timeout
        buffer ready =
        some (out.slot, (get_tud tus filename args).1.store (string_of_c_str filename)
          { (get_tud tus filename args).2 with
            tu := r.2
            last_completions := r.1
            completions := out }) := by
  obtain ⟨out, hout, -⟩ := export_array_spec r.1 (get_tud tus filename args).2.completions
    (by omega)
  refine ⟨out, hout, ?_⟩
  unfold clang_complete_get_completions
  simp [hr, hout]

/-- What a returned array of `clang_complete_get_completions` is: the sentinel, or
the export of a set that `async_complete_at` returned for the entry. -/
theorem clang_complete_get_completions_some (an : Analyzer) (tus : Registry)
    (locked : Bool) (filename : List Nat) (args : List (List Nat)) (line col : Nat)
    (pre : List Nat) (timeout : Int) (buffer : BufferArg) (ready : Bool)
    (out : CStringArray) (tus1 : Registry)
    (h : clang_complete_get_completions an tus locked filename args line col pre timeout
      buffer ready = some (out, tus1)) :
    (locked = false ∧ out = empty_result) ∨
    (locked = true ∧ ∃ (r : StringSet × async_translation_unit)
        (o : c_array (CLANG_COMPLETE_MAX_RESULTS + 2)),
      (get_tud tus filename args).2.tu.async_complete_at an line col pre timeout buffer
        ready = some r ∧
      export_array r.1 (get_tud tus filename args).2.completions = some o ∧
      out = o.slot) := by
  cases locked with
  | false =>
    simp only [clang_complete_get_completions, Bool.not_false, if_true, Option.some.injEq,
      Prod.mk.injEq] at h
    exact Or.inl ⟨rfl, h.1.symm⟩
  | true =>
    right
    cases hr : (get_tud tus filename args).2.tu.async_complete_at an line col pre timeout
        buffer ready with
    | none =>
      unfold clang_complete_get_completions at h
      simp [hr] at h
    | some r =>
      obtain ⟨o, ho, hcall⟩ := clang_complete_get_completions_locked an tus filename args
        line col pre timeout buffer ready r hr
      rw [hcall] at h
      simp only [Option.some.injEq, Prod.mk.injEq] at h
      exact ⟨rfl, r, o, rfl, ho, h.1.symm⟩

theorem string_of_c_str_idem (s : List Nat) :
    string_of_c_str (string_of_c_str s) = string_of_c_str s :=
  string_of_c_str_eq_self (zero_not_mem_string_of_c_str s)

/-- The function `starts_with` in the words of the specification, for the C string
at `pre` and any `std::string`. -/
theorem starts_with_iff_take (str pre : List Nat) :
    starts_with str pre = true ↔
      (string_of_c_str pre).length ≤ str.length ∧
        str.take (string_of_c_str pre).length = string_of_c_str pre := by
  rw [← isPrefix_iff_take,
    ← starts_with_iff_isPrefix (zero_not_mem_string_of_c_str pre) str,
    starts_with_iff, starts_with_iff, string_of_c_str_idem]

theorem string_of_c_str_mono {p1 p2 : List Nat} (h : p1 <+: p2) :
    string_of_c_str p1 <+: string_of_c_str p2 := by
  induction p1 generalizing p2 with
  | nil => simp [string_of_c_str]
  | cons c t ih =>
    cases p2 with
    | nil => simp at h
    | cons d u =>
      obtain ⟨rfl, htu⟩ := List.cons_prefix_cons.1 h
      by_cases hc : c = 0
      · simp [string_of_c_str, hc]
      · have := ih htu
        simp only [string_of_c_str] at this
        simp only [string_of_c_str, List.takeWhile_cons, ne_eq, hc, not_false_eq_true,
          decide_True, if_true]
        exact List.cons_prefix_cons.2 ⟨rfl, this⟩

theorem starts_with_mono {p1 p2 : List Nat} (h : p1 <+: p2) (str : List Nat)
    (hs : starts_with str p2 = true) : starts_with str p1 = true := by
  rw [starts_with_iff] at hs ⊢
  exact (string_of_c_str_mono h).trans hs

/-! ## The claims -/

/-- C1: every string in a set returned by `async_complete_at`, and every entry
before the terminator of an array returned by `clang_complete_get_completions`, has
the prefix as a byte-wise, case-sensitive prefix, whatever the pending query, the
cursor, the timeout and the outcome of the wait. Here `p = string_of_c_str pre` is
the NUL-terminated prefix; `starts_with s pre` holds exactly when `len p ≤ len s` and
the first `len p` bytes of `s` are `p`, and the empty prefix matches every string.
Both functions return when a null buffer comes with `len` 0. -/
theorem async_complete_at_results_start_with (an : Analyzer) (self : async_translation_unit)
    (line col : Nat) (pre : List Nat) (timeout : Int) (buffer : BufferArg)
    (ready : Bool) :
    (∀ r, self.async_complete_at an line col pre timeout buffer ready = some r →
      ∀ s ∈ r.1,
        (string_of_c_str pre).length ≤ s.length ∧
          s.take (string_of_c_str pre).length = string_of_c_str pre) ∧
    (∀ s : StdString, starts_with s pre = true ↔
      (string_of_c_str pre).length ≤ s.length ∧
        s.take (string_of_c_str pre).length = string_of_c_str pre) ∧
    (∀ s : StdString, starts_with s [] = true) ∧
    (∀ (tus : Registry) (locked : Bool) (filename : List Nat) (args : List (List Nat))
        (out : CStringArray) (tus1 : Registry),
      clang_complete_get_completions an tus locked filename args line col pre timeout
        buffer ready = some (out, tus1) →
      ∃ k, out k = some [] ∧
        ∀ i, i < k → ∃ s, out i = some s ∧
          (string_of_c_str pre).length ≤ s.length ∧
            s.take (string_of_c_str pre).length = string_of_c_str pre) ∧
    ((buffer.is_null = true → buffer.len = 0) →
      (∃ r, self.async_complete_at an line col pre timeout buffer ready = some r) ∧
      ∀ (tus : Registry) (locked : Bool) (filename : List Nat) (args : List (List Nat)),
        ∃ out tus1,
          clang_complete_get_completions an tus locked filename args line col pre timeout
            buffer ready = some (out, tus1)) := by
  refine ⟨fun r hr s hs => ?_, fun s => starts_with_iff_take s pre, starts_with_nil, ?_, ?_⟩
  · exact (starts_with_iff_take s pre).1 (async_complete_at_fst_mem an self line col pre
      timeout buffer ready r hr s hs)
  · intro tus locked filename args out tus1 h
    rcases clang_complete_get_completions_some an tus locked filename args line col pre
      timeout buffer ready out tus1 h with ⟨-, rfl⟩ | ⟨-, r, o, hr, ho, rfl⟩
    · exact ⟨0, rfl, fun i hi => absurd hi (Nat.not_lt_zero i)⟩
    · obtain ⟨o1, ho1, hslots, hterm, -⟩ := export_array_spec r.1
        (get_tud tus filename args).2.completions (by omega)
      rw [ho] at ho1
      cases ho1
      refine ⟨_, hterm, fun i hi => ?_⟩
      have hlt : i < r.1.length := lt_of_lt_of_le hi (min_le_left _ _)
      refine ⟨_, ?_, (starts_with_iff_take _ pre).1 (async_complete_at_fst_mem an
        (get_tud tus filename args).2.tu line col pre timeout buffer ready r hr _
        (List.getElem_mem hlt))⟩
      rw [hslots i hi, List.getElem?_eq_getElem hlt]
  · intro hbuf
    refine ⟨async_complete_at_returns an self line col pre timeout buffer ready hbuf, ?_⟩
    intro tus locked filename args
    cases locked with
    | false => exact ⟨empty_result, tus, by simp [clang_complete_get_completions]⟩
    | true =>
      obtain ⟨r, hr⟩ := async_complete_at_returns an (get_tud tus filename args).2.tu line
        col pre timeout buffer ready hbuf
      obtain ⟨o, -, hcall⟩ := clang_complete_get_completions_locked an tus filename args
        line col pre timeout buffer ready r hr
      exact ⟨_, _, hcall⟩

/-- The settled unit for (1,30) asked for the prefix `f` with a null buffer and
`len` 0: the call returns, and what it returns starts with `f`. -/
theorem async_complete_at_results_start_with_witness :
    ((BufferArg.null 0).is_null = true → (BufferArg.null 0).len = 0) ∧
    example_settled_unit.async_complete_at example_analyzer 1 30 [102] 0
      (BufferArg.null 0) true = some ([[102, 111, 111]], example_settled_unit) ∧
    ∀ r, example_settled_unit.async_complete_at example_analyzer 1 30 [102] 0
        (BufferArg.null 0) true = some r →
      ∀ s ∈ r.1,
        (string_of_c_str [102]).length ≤ s.length ∧
          s.take (string_of_c_str [102]).length = string_of_c_str [102] :=
  ⟨fun _ => rfl, by decide,
    (async_complete_at_results_start_with example_analyzer example_settled_unit 1 30 [102] 0
      (BufferArg.null 0) true).1⟩

/-- C2: at a cursor different from the stored location, `async_complete_at` with
timeout 0, called with a non-null buffer or with a null buffer and `len` 0, returns
the empty set for every pending query (resolved future or not) and every prefix;
afterwards the stored location is the cursor and the cached set is empty;
`clang_complete_get_completions` on an entry in that state returns an array whose
first element is the empty-string terminator. -/
theorem async_complete_at_miss_timeout_zero (an : Analyzer) (self : async_translation_unit)
    (line col : Nat) (pre : List Nat) (buffer : BufferArg) (ready : Bool)
    (hmiss : (line, col) ≠ (self.q.line, self.q.col))
    (hbuf : buffer.is_null = true → buffer.len = 0) :
    ∃ r, self.async_complete_at an line col pre 0 buffer ready = some r ∧
      r.1 = [] ∧
      (r.2.q.line, r.2.q.col) = (line, col) ∧
      r.2.q.results = [] ∧
      (∀ (tus : Registry) (locked : Bool) (filename : List Nat) (args : List (List Nat)),
        (get_tud tus filename args).2.tu = self →
        ∃ out tus1,
          clang_complete_get_completions an tus locked filename args line col pre 0
            buffer ready = some (out, tus1) ∧
          out 0 = some []) := by
  have hcall := async_complete_at_miss_zero an self line col pre buffer ready hmiss hbuf
  refine ⟨_, hcall, rfl, rfl, rfl, ?_⟩
  intro tus locked filename args hself
  cases locked with
  | false =>
    exact ⟨empty_result, tus, by simp [clang_complete_get_completions], rfl⟩
  | true =>
    rw [← hself] at hcall
    obtain ⟨out, hout, habi⟩ := clang_complete_get_completions_locked an tus
      filename args line col pre 0 buffer ready _ hcall
    obtain ⟨out1, hout1, -, hterm, -⟩ := export_array_spec ([] : List StdString)
      (get_tud tus filename args).2.completions (by omega)
    rw [hout] at hout1
    cases hout1
    exact ⟨out.slot, _, habi, by simpa using hterm⟩

/-- C3: `export_array` writes `k = min(n, MAX_RESULTS)` entries into an output array
of `MAX_RESULTS + 2` slots: slot `i < k` holds the `i`-th element of the range in
iteration order, slot `k` the empty string, no slot beyond `k` is written, and `k`
is at most `MAX_RESULTS`, so every write is inside the array. -/
theorem export_array_writes_min_entries (r : List StdString)
    (out : c_array (CLANG_COMPLETE_MAX_RESULTS + 2)) :
    ∃ out1, export_array r out = some out1 ∧
      (∀ i, i < min r.length CLANG_COMPLETE_MAX_RESULTS →
        ∃ x, r[i]? = some x ∧ out1.slot i = some x) ∧
      out1.slot (min r.length CLANG_COMPLETE_MAX_RESULTS) = some [] ∧
      (∀ j, min r.length CLANG_COMPLETE_MAX_RESULTS < j → out1.slot j = out.slot j) ∧
      min r.length CLANG_COMPLETE_MAX_RESULTS ≤ CLANG_COMPLETE_MAX_RESULTS ∧
      min r.length CLANG_COMPLETE_MAX_RESULTS < CLANG_COMPLETE_MAX_RESULTS + 2 := by
  obtain ⟨out1, h1, hslots, hterm, hrest⟩ := export_array_spec r out (by omega)
  have hk : min r.length CLANG_COMPLETE_MAX_RESULTS ≤ CLANG_COMPLETE_MAX_RESULTS :=
    min_le_right _ _
  refine ⟨out1, h1, fun i hi => ?_, hterm, hrest, hk, by omega⟩
  have hlt : i < r.length := lt_of_lt_of_le hi (min_le_left _ _)
  exact ⟨r[i], List.getElem?_eq_getElem hlt, by rw [hslots i hi, List.getElem?_eq_getElem hlt]⟩

/-- C4: once the future has been consumed (the pending query holds no future), two
calls of `async_complete_at` at the pending location with prefixes `p1`, a byte-wise
prefix of `p2`, and any timeouts and buffers: both return, the set returned for `p2`
is a subset of the set returned for `p1`, and neither call changes the unit, its
cached set included. -/
theorem async_complete_at_prefix_monotone (an : Analyzer) (self : async_translation_unit)
    (line col : Nat) (p1 p2 : List Nat) (t1 t2 : Int) (b1 b2 : BufferArg)
    (ready1 ready2 : Bool)
    (hloc : (line, col) = (self.q.line, self.q.col))
    (hsettled : self.q.results_future = none)
    (hp : p1 <+: p2) :
    ∃ r1 r2,
      self.async_complete_at an line col p1 t1 b1 ready1 = some r1 ∧
      self.async_complete_at an line col p2 t2 b2 ready2 = some r2 ∧
      (∀ x ∈ r2.1, x ∈ r1.1) ∧
      r1.2 = self ∧ r2.2 = self ∧
      r1.2.q.results = self.q.results ∧ r2.2.q.results = self.q.results := by
  have h1 := async_complete_at_hit an self line col p1 t1 b1 ready1 hloc hsettled
  have h2 := async_complete_at_hit an self line col p2 t2 b2 ready2 hloc hsettled
  refine ⟨_, _, h1, h2, fun x hx => ?_, rfl, rfl, rfl, rfl⟩
  obtain ⟨hmem, hs⟩ := (mem_filter_insert p2 _ x).1 hx
  exact (mem_filter_insert p1 _ x).2 ⟨hmem, starts_with_mono hp x hs⟩

/-- A miss at (2,1), with a null buffer and `len` 0, on a unit whose cache for
(1,30) holds `bar` and `foo`. -/
theorem async_complete_at_miss_timeout_zero_witness :
    ((2, 1) : Nat × Nat) ≠ (example_settled_unit.q.line, example_settled_unit.q.col) ∧
    example_settled_unit.q.results = [[98, 97, 114], [102, 111, 111]] ∧
    ((BufferArg.null 0).is_null = true → (BufferArg.null 0).len = 0) ∧
    ∃ r, example_settled_unit.async_complete_at example_analyzer 2 1 [] 0
        (BufferArg.null 0) true = some r ∧ r.1 = [] :=
  ⟨by decide, by decide, fun _ => rfl,
    (async_complete_at_miss_timeout_zero example_analyzer example_settled_unit 2 1 []
      (BufferArg.null 0) true (by decide) (fun _ => rfl)).imp
      (fun _ h => ⟨h.1, h.2.1⟩)⟩

/-- Narrowing the prefix from `f` to `foo` on the settled unit for (1,30). -/
theorem async_complete_at_prefix_monotone_witness :
    ((1, 30) : Nat × Nat) = (example_settled_unit.q.line, example_settled_unit.q.col) ∧
    example_settled_unit.q.results_future = none ∧
    ([102] : List Nat) <+: [102, 111, 111] ∧
    example_settled_unit.async_complete_at example_analyzer 1 30 [102] 0
        (BufferArg.null 0) true = some ([[102, 111, 111]], example_settled_unit) ∧
    ∃ r1 r2,
      example_settled_unit.async_complete_at example_analyzer 1 30 [102] 0
        (BufferArg.null 0) true = some r1 ∧
      example_settled_unit.async_complete_at example_analyzer 1 30 [102, 111, 111] 0
        (BufferArg.null 0) true = some r2 ∧
      ∀ x ∈ r2.1, x ∈ r1.1 :=
  ⟨by decide, by decide, by decide, by decide,
    (async_complete_at_prefix_monotone example_analyzer example_settled_unit 1 30 [102]
      [102, 111, 111] 0 0 (BufferArg.null 0) (BufferArg.null 0) true true (by decide)
      (by decide) (by decide)).imp
      (fun _ h => h.imp (fun _ h2 => ⟨h2.1, h2.2.1, h2.2.2.1⟩))⟩

/-- C10: on a freshly created unit a call at cursor (0,0) is a location hit: it
spawns no task, leaves the unit (its pending query included) unchanged and returns
the empty set for every prefix, timeout and buffer; in any sequence of such calls
every call returns and the unit stays fresh, so each of them returns the empty
set. -/
theorem fresh_unit_origin_never_computed (an : Analyzer) (filename : List Nat)
    (args : List (List Nat)) :
    (async_translation_unit.create filename args).q = query.init ∧
    (∀ (pre : List Nat) (timeout : Int) (buffer : BufferArg) (ready : Bool),
      (async_translation_unit.create filename args).async_complete_at an 0 0 pre timeout
        buffer ready = some ([], async_translation_unit.create filename args)) ∧
    (∀ (timeout : Int) (ready : Bool),
      Op.spawn_task ∉
        (async_translation_unit.create filename args).async_complete_at_ops 0 0 timeout
          ready) ∧
    (∀ calls : List (List Nat × Int × BufferArg × Bool),
      calls.foldlM
        (fun unit call =>
          (unit.async_complete_at an 0 0 call.1 call.2.1 call.2.2.1 call.2.2.2).map Prod.snd)
        (async_translation_unit.create filename args) =
      some (async_translation_unit.create filename args)) := by
  have hcall : ∀ (pre : List Nat) (timeout : Int) (buffer : BufferArg) (ready : Bool),
      (async_translation_unit.create filename args).async_complete_at an 0 0 pre timeout
        buffer ready = some ([], async_translation_unit.create filename args) := by
    intro pre timeout buffer ready
    exact async_complete_at_hit an _ 0 0 pre timeout buffer ready rfl rfl
  refine ⟨rfl, hcall, ?_, ?_⟩
  · intro timeout ready
    by_cases ht : timeout > 0
    · simp [async_translation_unit.async_complete_at_ops, async_translation_unit.create,
        query.init, query.get_loc, query.get_loc_ops, query.get_ops, ht]
    · simp [async_translation_unit.async_complete_at_ops, async_translation_unit.create,
        query.init, query.get_loc, query.get_loc_ops, query.get_ops, ht]
  · intro calls
    induction calls with
    | nil => rfl
    | cons call rest ih =>
      rw [List.foldlM_cons, hcall]
      exact ih

theorem mem_complete_at (an : Analyzer) (self : translation_unit) (line col : Nat)
    (pre : List Nat) (buffer : Option StdString) (a : StdString) :
    a ∈ self.complete_at an line col pre buffer ↔
      ∃ c ∈ self.completions_at an line col buffer,
        (!(translation_unit.typed_text c).isEmpty &&
          starts_with (translation_unit.typed_text c) pre) = true ∧
        translation_unit.typed_text c = a := by
  have h := mem_foldl_insert
    (fun c => !(translation_unit.typed_text c).isEmpty &&
      starts_with (translation_unit.typed_text c) pre)
    translation_unit.typed_text (self.completions_at an line col buffer) [] a
  simp only [List.not_mem_nil, false_or] at h
  exact h

theorem sorted_complete_at (an : Analyzer) (self : translation_unit) (line col : Nat)
    (pre : List Nat) (buffer : Option StdString) :
    (self.complete_at an line col pre buffer).Sorted (· < ·) :=
  sorted_foldl_insert
    (fun c => !(translation_unit.typed_text c).isEmpty &&
      starts_with (translation_unit.typed_text c) pre)
    translation_unit.typed_text (self.completions_at an line col buffer) List.sorted_nil

/-- Filtering the full set by a prefix is completing with that prefix. -/
theorem mem_complete_at_iff_filter (an : Analyzer) (self : translation_unit) (line col : Nat)
    (pre : List Nat) (buffer : Option StdString) (a : StdString) :
    a ∈ self.complete_at an line col pre buffer ↔
      a ∈ self.complete_at an line col [] buffer ∧ starts_with a pre = true := by
  rw [mem_complete_at, mem_complete_at]
  constructor
  · rintro ⟨c, hc, hcond, rfl⟩
    simp only [Bool.and_eq_true] at hcond
    exact ⟨⟨c, hc, by simp [hcond.1, starts_with_nil], rfl⟩, hcond.2⟩
  · rintro ⟨⟨c, hc, hcond, rfl⟩, hs⟩
    simp only [Bool.and_eq_true] at hcond
    exact ⟨c, hc, by simp [hcond.1, hs], rfl⟩


/-- A call that misses, waits and finds the task ready leaves the query settled:
no future, the cursor as location, and the full completion set as cache. -/
theorem async_complete_at_dispatch_and_consume (an : Analyzer) (self : async_translation_unit)
    (line col : Nat) (pre : List Nat) (timeout : Int) (buffer : BufferArg)
    (hmiss : (line, col) ≠ (self.q.line, self.q.col)) (ht : timeout > 0)
    (hbuf : buffer.is_null = true → buffer.len = 0) :
    (self.async_complete_at an line col pre timeout buffer true).map Prod.snd =
      some { self with
             q := { results_future := none
                    results :=
                      self.totranslation_unit.complete_at an line col [] buffer.unsaved
                    line := line
                    col := col } } := by
  obtain ⟨hs, hb⟩ := string_of_range_of_valid buffer hbuf
  unfold async_translation_unit.async_complete_at
  have hmiss2 : (line, col) ≠ self.q.get_loc := hmiss
  simp [hmiss2, hs, hb, query.get, query.set, detach_async, ht]

/-- C9: once the task dispatched for (line, col) has been consumed into the cached
set (no future left, the location is the cursor, the cache is the empty-prefix
completion set of the analyzer answer for buffer `b`), `async_complete_at` at that
cursor returns, for every prefix and every timeout, exactly the set the synchronous
`complete_at` returns for that prefix, and leaves the unit as it is: the elements of
the cache that start with the prefix. -/
theorem async_complete_at_settled_eq_complete_at (an : Analyzer)
    (self : async_translation_unit) (line col : Nat) (pre : List Nat) (timeout : Int)
    (b : Option StdString) (buffer : BufferArg) (ready : Bool)
    (hloc : (line, col) = (self.q.line, self.q.col))
    (hfut : self.q.results_future = none)
    (hcached : self.q.results = self.totranslation_unit.complete_at an line col [] b) :
    self.async_complete_at an line col pre timeout buffer ready =
      some (self.totranslation_unit.complete_at an line col pre b, self) ∧
    (∀ x, x ∈ self.totranslation_unit.complete_at an line col pre b ↔
      x ∈ self.q.results ∧ starts_with x pre = true) ∧
    self.async_complete_at an line col [] timeout buffer ready =
      some (self.q.results, self) := by
  have hfilter : ∀ p : List Nat,
      self.async_complete_at an line col p timeout buffer ready =
        some (self.totranslation_unit.complete_at an line col p b, self) := by
    intro p
    rw [async_complete_at_hit an self line col p timeout buffer ready hloc hfut]
    congr 2
    refine sorted_ext (sorted_foldl_insert (fun x => starts_with x p) (fun x => x) _
      List.sorted_nil) (sorted_complete_at an _ line col p b) (fun x => ?_)
    rw [mem_filter_insert, hcached]
    exact (mem_complete_at_iff_filter an _ line col p b x).symm
  refine ⟨hfilter pre, fun x => ?_, ?_⟩
  · rw [hcached]
    exact mem_complete_at_iff_filter an _ line col pre b x
  · rw [hfilter [], hcached]

/-- The unit settled at (1,30) by an awaited call, asked again for the prefix `foo`
without waiting (and with a null buffer beside a positive `len`, which a hit does
not read). -/
theorem async_complete_at_settled_eq_complete_at_witness :
    (async_translation_unit.create example_filename example_args).async_complete_at
      example_analyzer 1 30 [102] 2000 (BufferArg.null 0) true =
      some ([[102, 111, 111]], example_settled_unit) ∧
    ((1, 30) : Nat × Nat) = (example_settled_unit.q.line, example_settled_unit.q.col) ∧
    example_settled_unit.q.results_future = none ∧
    example_settled_unit.q.results =
      example_settled_unit.totranslation_unit.complete_at example_analyzer 1 30 [] none ∧
    example_settled_unit.totranslation_unit.complete_at example_analyzer 1 30
      [102, 111, 111] none = [[102, 111, 111]] ∧
    example_settled_unit.async_complete_at example_analyzer 1 30 [102, 111, 111] 0
      (BufferArg.null 5) false =
      some (example_settled_unit.totranslation_unit.complete_at example_analyzer 1 30
        [102, 111, 111] none, example_settled_unit) :=
  ⟨by decide, by decide, by decide, by decide, by decide,
    (async_complete_at_settled_eq_complete_at example_analyzer example_settled_unit 1 30
      [102, 111, 111] 0 none (BufferArg.null 5) false (by decide) (by decide)
      (by decide)).1⟩

/-- C7: after `clang_complete_free_tu(f)` the registry has no entry for `f` and every
other entry is unchanged; the next `get_tud(f, args)` stores and returns a new entry
parsed from `args`, with the pending query in its initial state (location (0,0), no
future, empty cache), the same entry `get_tud` creates in any registry without an
entry for `f`. On a registry that holds an entry for `f`, `get_tud` returns that
entry, leaves the registry as it is and ignores `args`. -/
theorem free_tu_then_get_tud_creates_fresh (tus : Registry) (f : List Nat)
    (args : List (List Nat)) :
    (clang_complete_free_tu tus f) (string_of_c_str f) = none ∧
    (∀ k, k ≠ string_of_c_str f → (clang_complete_free_tu tus f) k = tus k) ∧
    get_tud (clang_complete_free_tu tus f) f args =
      ((clang_complete_free_tu tus f).store (string_of_c_str f)
        (translation_unit_data.create f args), translation_unit_data.create f args) ∧
    (translation_unit_data.create f args).tu.tu.command_line_args = args ∧
    (translation_unit_data.create f args).tu.q =
      { results_future := none, results := [], line := 0, col := 0 } ∧
    (∀ tus0 : Registry, tus0 (string_of_c_str f) = none →
      get_tud tus0 f args =
        (tus0.store (string_of_c_str f) (translation_unit_data.create f args),
          translation_unit_data.create f args)) ∧
    (∀ entry, tus (string_of_c_str f) = some entry → get_tud tus f args = (tus, entry)) := by
  have hfree : (clang_complete_free_tu tus f) (string_of_c_str f) = none := by
    unfold clang_complete_free_tu
    cases h : tus (string_of_c_str f) with
    | none => simp [h]
    | some e => simp [h, Registry.erase]
  have hfresh : ∀ tus0 : Registry, tus0 (string_of_c_str f) = none →
      get_tud tus0 f args =
        (tus0.store (string_of_c_str f) (translation_unit_data.create f args),
          translation_unit_data.create f args) := by
    intro tus0 h0
    simp [get_tud, h0]
  refine ⟨hfree, ?_, hfresh _ hfree, rfl, rfl, hfresh, ?_⟩
  · intro k hk
    unfold clang_complete_free_tu
    cases h : tus (string_of_c_str f) with
    | none => simp [h]
    | some e => simp [h, Registry.erase, hk]
  · intro entry h
    simp [get_tud, h]


/-- Freeing `t.c` lets the next `get_tud` parse with the new arguments; without the
free the entry made from the first arguments is kept. -/
theorem free_tu_then_get_tud_creates_fresh_witness :
    (get_tud
      (clang_complete_free_tu
        (get_tud example_empty_registry example_filename example_args).1 example_filename)
      example_filename example_args_cxx).2.tu.tu.command_line_args = example_args_cxx ∧
    (get_tud (get_tud example_empty_registry example_filename example_args).1
      example_filename example_args_cxx).2.tu.tu.command_line_args = example_args := by
  refine ⟨?_, by decide⟩
  rw [(free_tu_then_get_tud_creates_fresh
    (get_tud example_empty_registry example_filename example_args).1 example_filename
    example_args_cxx).2.2.1]
  rfl

theorem foldl_typed_text (chunks : List (CXCompletionChunkKind × CXString))
    (r : StdString) :
    chunks.foldl
      (fun acc ch =>
        (fun (s : StdString) (kind : CXCompletionChunkKind) (r : StdString) =>
          if kind = CXCompletionChunkKind.TypedText then s else r)
          (translation_unit.to_std_string ch.2) ch.1 acc) r =
      (((chunks.filter (fun ch => decide (ch.1 = CXCompletionChunkKind.TypedText))).map
        (fun ch => translation_unit.to_std_string ch.2)).getLast?).getD r := by
  induction chunks generalizing r with
  | nil => rfl
  | cons ch rest ih =>
    rw [List.foldl_cons, ih]
    by_cases hk : ch.1 = CXCompletionChunkKind.TypedText
    · simp only [hk, if_true, List.filter_cons, decide_True, List.map_cons,
        List.getLast?_cons, Option.getD_some]
    · simp only [hk, if_false, List.filter_cons, decide_False, Bool.false_eq_true]

theorem typed_text_eq (c : CXCompletionResult) :
    translation_unit.typed_text c =
      if c.CompletionString.availability = CXAvailabilityKind.Available then
        ((typed_text_chunks c).getLast?).getD []
      else [] := by
  unfold translation_unit.typed_text translation_unit.for_each_completion_string
  by_cases ha : c.CompletionString.availability = CXAvailabilityKind.Available
  · rw [if_pos ha, if_pos ha]
    exact foldl_typed_text _ _
  · rw [if_neg ha, if_neg ha]

/-- C6, as the code has it: the identifier `complete_at` extracts for a completion
is nothing when its availability is not available, else the text of the last chunk
of kind typed-text in chunk order (nothing when there is none), chunks of other
kinds contributing nothing; this is the concatenation of the typed-text chunks
whenever there is at most one of them. The identifier is in the result set exactly
when it is the identifier of some completion, is non-empty and starts with the
prefix. -/
theorem typed_text_is_last_typed_chunk (an : Analyzer) (self : translation_unit)
    (line col : Nat) (pre : List Nat) (buffer : Option StdString) (c : CXCompletionResult) :
    (translation_unit.typed_text c =
      if c.CompletionString.availability = CXAvailabilityKind.Available then
        ((typed_text_chunks c).getLast?).getD []
      else []) ∧
    ((typed_text_chunks c).length ≤ 1 →
      translation_unit.typed_text c = spec_typed_text_concat c) ∧
    (∀ a : StdString, a ∈ self.complete_at an line col pre buffer ↔
      ∃ c ∈ self.completions_at an line col buffer,
        translation_unit.typed_text c = a ∧ a ≠ [] ∧ starts_with a pre = true) := by
  refine ⟨typed_text_eq c, fun hlen => ?_, fun a => ?_⟩
  · rw [typed_text_eq]
    unfold spec_typed_text_concat
    by_cases ha : c.CompletionString.availability = CXAvailabilityKind.Available
    · rw [if_pos ha, if_pos ha]
      unfold typed_text_chunks at hlen ⊢
      generalize (c.CompletionString.chunks.filter
        (fun ch => decide (ch.1 = CXCompletionChunkKind.TypedText))).map
        (fun ch => translation_unit.to_std_string ch.2) = texts at hlen ⊢
      match texts, hlen with
      | [], _ => rfl
      | [t], _ => simp
      | _ :: _ :: _, h => simp at h
    · rw [if_neg ha, if_neg ha]
  · rw [mem_complete_at]
    constructor
    · rintro ⟨c1, hc1, hcond, rfl⟩
      simp only [Bool.and_eq_true, Bool.not_eq_true', List.isEmpty_eq_false] at hcond
      exact ⟨c1, hc1, rfl, hcond.1, hcond.2⟩
    · rintro ⟨c1, hc1, rfl, hne, hs⟩
      refine ⟨c1, hc1, ?_, rfl⟩
      simp only [Bool.and_eq_true, Bool.not_eq_true', List.isEmpty_eq_false]
      exact ⟨hne, hs⟩

/-- The completion `int foo` has one typed-text chunk: its identifier is `foo`, the
concatenation of its typed-text chunks. -/
theorem typed_text_is_last_typed_chunk_witness :
    (typed_text_chunks example_foo).length ≤ 1 ∧
    translation_unit.typed_text example_foo = [102, 111, 111] ∧
    translation_unit.typed_text example_foo = spec_typed_text_concat example_foo :=
  ⟨by decide, by decide,
    (typed_text_is_last_typed_chunk example_analyzer
      (translation_unit.create example_filename example_args) 1 30 [] none
      example_foo).2.1 (by decide)⟩

/-- C6, as stated, fails: for an available completion with the typed-text chunks `f`
and `g` the code extracts `g`, while the concatenation is `fg`. -/
theorem typed_text_not_concat :
    translation_unit.typed_text example_two_typed = [103] ∧
    spec_typed_text_concat example_two_typed = [102, 103] ∧
    translation_unit.typed_text example_two_typed ≠
      spec_typed_text_concat example_two_typed := by
  decide

/-! ### Diagnostics -/

theorem get_diagnostics_foldl (l : List (Option CXDiagnostic)) (acc : List StdString) :
    l.foldl
      (fun result diag =>
        match diag with
        | none => result
        | some d =>
          if d.severity ≠ CXDiagnosticSeverity.Ignored then
            result ++ [translation_unit.to_std_string d.formatted]
          else result)
      acc =
    acc ++ (l.filterMap
      (fun diag =>
        match diag with
        | none => none
        | some d => if d.severity ≠ CXDiagnosticSeverity.Ignored then some d else none)).map
      (fun d => translation_unit.to_std_string d.formatted) := by
  induction l generalizing acc with
  | nil => simp
  | cons diag rest ih =>
    rw [List.foldl_cons, ih]
    cases diag with
    | none => simp
    | some d =>
      by_cases hd : d.severity = CXDiagnosticSeverity.Ignored
      · simp [hd]
      · simp [hd]

/-- The list `get_diagnostics` returns: the formatted text of each non-ignored
diagnostic, in order. -/
theorem get_diagnostics_eq (an : Analyzer) (self : translation_unit) :
    self.get_diagnostics an =
      (non_ignored_diagnostics an self.tu).map
        (fun d => translation_unit.to_std_string d.formatted) := by
  unfold translation_unit.get_diagnostics non_ignored_diagnostics
  rw [get_diagnostics_foldl]
  simp

theorem clang_complete_get_diagnostics_locked (an : Analyzer) (tus : Registry)
    (filename : List Nat) (args : List (List Nat)) :
    ∃ out : c_array (CLANG_COMPLETE_MAX_RESULTS + 2),
      export_array
        (((get_tud tus filename args).2.tu.totranslation_unit.reparse none).get_diagnostics an)
        (get_tud tus filename args).2.diagnostics = some out ∧
      ∃ tus1, clang_complete_get_diagnostics an tus true filename args =
        some (out.slot, tus1) := by
  obtain ⟨out, hout, -⟩ := export_array_spec
    (((get_tud tus filename args).2.tu.totranslation_unit.reparse none).get_diagnostics an)
    (get_tud tus filename args).2.diagnostics (by omega)
  refine ⟨out, hout, ?_⟩
  unfold clang_complete_get_diagnostics
  simp [hout]

/-- C5, as the code has it: for an analyzer that formats every non-ignored
diagnostic as a non-empty C string, when the registry lock is obtained the array of
`clang_complete_get_diagnostics` holds, in order, the formatted strings of the first
`min(n, MAX_RESULTS)` of the `n` non-ignored diagnostics, each non-empty, and the
empty string at index `min(n, MAX_RESULTS)`, its first empty string; when the lock
is not obtained the array is the sentinel alone and the registry is untouched. -/
theorem get_diagnostics_array_non_empty_entries (an : Analyzer) (tus : Registry)
    (filename : List Nat) (args : List (List Nat))
    (hfmt : ∀ tu, ∀ d ∈ non_ignored_diagnostics an tu,
      translation_unit.to_std_string d.formatted ≠ []) :
    clang_complete_get_diagnostics an tus false filename args = some (empty_result, tus) ∧
    ∃ out tus1,
      clang_complete_get_diagnostics an tus true filename args = some (out, tus1) ∧
      out (min (non_ignored_diagnostics an
          ((get_tud tus filename args).2.tu.totranslation_unit.reparse none).tu).length
        CLANG_COMPLETE_MAX_RESULTS) = some [] ∧
      ∀ i, i < min (non_ignored_diagnostics an
          ((get_tud tus filename args).2.tu.totranslation_unit.reparse none).tu).length
          CLANG_COMPLETE_MAX_RESULTS →
        ∃ d, (non_ignored_diagnostics an
            ((get_tud tus filename args).2.tu.totranslation_unit.reparse none).tu)[i]? =
            some d ∧
          out i = some (translation_unit.to_std_string d.formatted) ∧
          translation_unit.to_std_string d.formatted ≠ [] := by
  refine ⟨by simp [clang_complete_get_diagnostics], ?_⟩
  obtain ⟨out, hout, tus1, hcall⟩ := clang_complete_get_diagnostics_locked an tus filename
    args
  obtain ⟨out1, hout1, hslots, hterm, -⟩ := export_array_spec
    (((get_tud tus filename args).2.tu.totranslation_unit.reparse none).get_diagnostics an)
    (get_tud tus filename args).2.diagnostics (by omega)
  rw [hout] at hout1
  cases hout1
  rw [get_diagnostics_eq, List.length_map] at hterm hslots
  refine ⟨out.slot, tus1, hcall, hterm, fun i hi => ?_⟩
  have hlt : i < (non_ignored_diagnostics an
      ((get_tud tus filename args).2.tu.totranslation_unit.reparse none).tu).length :=
    lt_of_lt_of_le hi (min_le_left _ _)
  refine ⟨_, List.getElem?_eq_getElem hlt, ?_, hfmt _ _ (List.getElem_mem hlt)⟩
  rw [hslots i hi, List.getElem?_map, List.getElem?_eq_getElem hlt]
  rfl

theorem example_analyzer_warning_formats (tu : CXTranslationUnit) :
    ∀ d ∈ non_ignored_diagnostics example_analyzer_warning tu,
      translation_unit.to_std_string d.formatted ≠ [] := by
  intro d hd
  simp only [non_ignored_diagnostics, example_analyzer_warning, List.filterMap_cons,
    List.filterMap_nil] at hd
  simp only [ne_eq, reduceCtorEq, not_false_eq_true, if_true, not_true_eq_false, if_false,
    List.mem_singleton] at hd
  subst hd
  decide

/-- An analyzer with one non-ignored diagnostic, formatted as `x`: the array is
`"x"`, `""`. -/
theorem get_diagnostics_array_non_empty_entries_witness :
    (∀ tu, ∀ d ∈ non_ignored_diagnostics example_analyzer_warning tu,
      translation_unit.to_std_string d.formatted ≠ []) ∧
    (clang_complete_get_diagnostics example_analyzer_warning example_empty_registry true
      example_filename example_args).map (fun r => (r.1 0, r.1 1)) =
      some (some [120], some []) ∧
    ∃ out tus1,
      clang_complete_get_diagnostics example_analyzer_warning example_empty_registry true
        example_filename example_args = some (out, tus1) ∧
      out 1 = some [] :=
  ⟨example_analyzer_warning_formats, by decide,
    (get_diagnostics_array_non_empty_entries example_analyzer_warning
      example_empty_registry example_filename example_args
      example_analyzer_warning_formats).2.imp
      (fun _ h => h.imp (fun _ h2 => ⟨h2.1, h2.2.1⟩))⟩

/-- C5, as stated, fails. When the registry lock is not obtained, an analyzer with
one non-ignored diagnostic `x` gives the sentinel: the first empty string is at
index 0, not at `min(1, MAX_RESULTS) = 1`. When the analyzer formats the first of
two errors as a null C string and the second as `x`, the array is `""`, `"x"`, `""`:
the entry at index 0, before the terminator at index 2, is empty. -/
theorem get_diagnostics_first_empty_not_at_min :
    ((non_ignored_diagnostics example_analyzer_warning
        ((translation_unit.create example_filename example_args).reparse none).tu).length
      = 1 ∧
     min 1 CLANG_COMPLETE_MAX_RESULTS = 1 ∧
     (clang_complete_get_diagnostics example_analyzer_warning example_empty_registry false
       example_filename example_args).map (fun r => r.1 0) = some (some [])) ∧
    ((non_ignored_diagnostics example_analyzer
        ((translation_unit.create example_filename example_args).reparse none).tu).length
      = 2 ∧
     min 2 CLANG_COMPLETE_MAX_RESULTS = 2 ∧
     (clang_complete_get_diagnostics example_analyzer example_empty_registry true
       example_filename example_args).map (fun r => (r.1 0, r.1 1, r.1 2)) =
       some (some [], some [120], some [])) := by
  decide

/-- The operations of `async_complete_at` form one of six sequences. -/
theorem async_complete_at_ops_cases (self : async_translation_unit) (line col : Nat)
    (timeout : Int) (ready : Bool) :
    self.async_complete_at_ops line col timeout ready ∈
      [query.get_loc_ops ++ [Op.spawn_task] ++ query.set_ops ++
          [Op.read QueryField.results_future, Op.write QueryField.results_future,
           Op.write QueryField.results, Op.read QueryField.results],
       query.get_loc_ops ++ [Op.spawn_task] ++ query.set_ops ++
          [Op.read QueryField.results_future, Op.read QueryField.results],
       query.get_loc_ops ++ [Op.spawn_task] ++ query.set_ops ++
          [Op.read QueryField.results],
       query.get_loc_ops ++
          [Op.read QueryField.results_future, Op.write QueryField.results_future,
           Op.write QueryField.results, Op.read QueryField.results],
       query.get_loc_ops ++
          [Op.read QueryField.results_future, Op.read QueryField.results],
       query.get_loc_ops ++ [Op.read QueryField.results]] := by
  unfold async_translation_unit.async_complete_at_ops query.get_ops
  by_cases hmiss : (line, col) ≠ self.q.get_loc
  · by_cases ht : timeout > 0
    · cases ready <;> simp [hmiss, ht, query.set, detach_async]
    · simp [hmiss, ht]
  · by_cases ht : timeout > 0
    · cases hf : self.q.results_future <;> cases ready <;> simp [hmiss, ht, hf]
    · simp [hmiss, ht]

/-- C8, as the code has it: in every run of `clang_complete_get_completions` each
write of a pending-query field happens while the calling thread holds the registry
lock `global_mutex`, and without the translation unit's mutex; the background task
(`complete_at`) holds the translation unit's mutex when it calls the analyzer, and
writes no pending-query field. -/
theorem query_written_under_registry_lock (tus : Registry) (locked : Bool)
    (filename : List Nat) (args : List (List Nat)) (line col : Nat) (timeout : Int)
    (ready : Bool) :
    (∀ e ∈ held_at []
        (clang_complete_get_completions_ops tus locked filename args line col timeout ready),
      e.2.is_write = true →
        Mutex.global_mutex ∈ e.1 ∧ Mutex.translation_unit_m ∉ e.1) ∧
    (∀ e ∈ held_at [] translation_unit.complete_at_ops,
      (e.2 = Op.codeCompleteAt → Mutex.translation_unit_m ∈ e.1) ∧ e.2.is_write = false) ∧
    Op.codeCompleteAt ∈ translation_unit.complete_at_ops := by
  refine ⟨?_, by decide, by decide⟩
  have hall : ∀ ops ∈
      [query.get_loc_ops ++ [Op.spawn_task] ++ query.set_ops ++
          [Op.read QueryField.results_future, Op.write QueryField.results_future,
           Op.write QueryField.results, Op.read QueryField.results],
       query.get_loc_ops ++ [Op.spawn_task] ++ query.set_ops ++
          [Op.read QueryField.results_future, Op.read QueryField.results],
       query.get_loc_ops ++ [Op.spawn_task] ++ query.set_ops ++
          [Op.read QueryField.results],
       query.get_loc_ops ++
          [Op.read QueryField.results_future, Op.write QueryField.results_future,
           Op.write QueryField.results, Op.read QueryField.results],
       query.get_loc_ops ++
          [Op.read QueryField.results_future, Op.read QueryField.results],
       query.get_loc_ops ++ [Op.read QueryField.results]],
      ∀ e ∈ held_at [] ([Op.lock Mutex.global_mutex] ++ ops ++ [Op.unlock Mutex.global_mutex]),
        e.2.is_write = true →
          Mutex.global_mutex ∈ e.1 ∧ Mutex.translation_unit_m ∉ e.1 := by
    decide
  cases locked with
  | false =>
    intro e he
    simp [clang_complete_get_completions_ops, held_at] at he
  | true =>
    have hops : clang_complete_get_completions_ops tus true filename args line col timeout
        ready =
        [Op.lock Mutex.global_mutex] ++
          (get_tud tus filename args).2.tu.async_complete_at_ops line col timeout ready ++
          [Op.unlock Mutex.global_mutex] := by
      simp [clang_complete_get_completions_ops]
    rw [hops]
    exact hall _ (async_complete_at_ops_cases _ line col timeout ready)

/-- C8, as stated, fails: in a first call of `clang_complete_get_completions` for
`t.c` at (1,30), `query::set` writes the pending-query fields while the calling
thread does not hold the translation unit's mutex. -/
theorem query_written_without_unit_lock :
    ¬ ∀ e ∈ held_at []
        (clang_complete_get_completions_ops example_empty_registry true example_filename
          example_args 1 30 2000 true),
      e.2.is_write = true → Mutex.translation_unit_m ∈ e.1 := by
  decide

end ClangComplete

